import Mathlib

/-!
Shallow embedding of `fetch_orcid.py`, a one-shot pipeline that fetches a
publication list from the ORCID public API, normalizes each work into a
BibTeX entry, sorts the entries and writes them to a file, guarded by a
one-day timestamp cache.

Strings are modelled over `List Char` (code points), matching Python's
string semantics for the ASCII data the script manipulates.  Network and
third-party-library effects (HTTP responses, `bibtexparser`, the BibTeX
writer) enter the model as explicit inputs: an environment record carries
the listing response, a detail-response oracle, a parse oracle and a
render function, so every run of the script corresponds to one choice of
environment.
-/

/-- Python truthiness of an optional string: `None` and `""` are falsy. -/
def truthy : Option String → Bool
  | none => false
  | some s => s != ""

/-- Character-wise lowercasing, modelling `str.lower()` on ASCII data. -/
def lowerChars (l : List Char) : List Char := l.map Char.toLower

/-- Lowercase a string, modelling Python `s.lower()`. -/
def lowerStr (s : String) : String := String.mk (lowerChars s.data)

/-- Code-point lexicographic order on character lists, modelling Python
string comparison. -/
def listLe : List Char → List Char → Bool
  | [], _ => true
  | _ :: _, [] => false
  | a :: as, b :: bs =>
    if a.toNat < b.toNat then true
    else if b.toNat < a.toNat then false
    else listLe as bs

/-- Strip leading and trailing whitespace, modelling Python `str.strip()`. -/
def stripChars (l : List Char) : List Char :=
  ((l.dropWhile Char.isWhitespace).reverse.dropWhile Char.isWhitespace).reverse

/-- Model of Python `s.strip()` at the string level. -/
def pyStrip (s : String) : String := String.mk (stripChars s.data)

/-- Does `pat` occur as a contiguous sublist of `l`?  Models Python
`pat in s`. -/
def containsSub (pat : List Char) : List Char → Bool
  | [] => pat.isPrefixOf []
  | c :: rest => pat.isPrefixOf (c :: rest) || containsSub pat rest

/-- Everything after the first occurrence of `pat` in `l`, or `l` itself
when `pat` does not occur.  Models Python `s.split(pat, 1)[-1]`. -/
def afterFirstSub (pat : List Char) : List Char → List Char
  | [] => []
  | c :: rest =>
    if pat.isPrefixOf (c :: rest) then (c :: rest).drop pat.length
    else afterFirstSub pat rest

/-- Everything after the last `'/'` in `l`, or `l` itself when there is
none.  Models Python `s.rsplit("/", 1)[-1]`. -/
def afterLastSlash (l : List Char) : List Char :=
  (l.reverse.takeWhile (fun c => c != '/')).reverse

/-- Numeric value of a decimal digit character. -/
def charVal (c : Char) : Nat := c.toNat - 48

/-- Match of the regex alternation `(1\d{3}|20\d{2})` anchored at the head
of the character list, returning the matched year value.  At a given
position the two alternatives are disjoint (first char `'1'` vs `'2'`). -/
def yearAt : List Char → Option Nat
  | c1 :: c2 :: c3 :: c4 :: _ =>
    if c1 = '1' ∧ c2.isDigit ∧ c3.isDigit ∧ c4.isDigit then
      some (1000 + 100 * charVal c2 + 10 * charVal c3 + charVal c4)
    else if c1 = '2' ∧ c2 = '0' ∧ c3.isDigit ∧ c4.isDigit then
      some (2000 + 10 * charVal c3 + charVal c4)
    else none
  | _ => none

/-- Leftmost match of `(1\d{3}|20\d{2})`, modelling
`re.search(r"(1\d{3}|20\d{2})", value)`: positions are tried left to
right. -/
def findYear : List Char → Option Nat
  | [] => none
  | c :: rest =>
    match yearAt (c :: rest) with
    | some y => some y
    | none => findYear rest

/-- Dynamically typed inputs to `_extract_year`: the value can be `None`,
an `int`, a `str`, or something else entirely. -/
inductive PyVal where
  | vNone
  | vInt (n : Int)
  | vStr (s : String)
  | vOther
deriving DecidableEq

/-- Model of `_extract_year`: an `int` is accepted when in `1000..9999`;
for a `str` the first substring matching `1\d{3}|20\d{2}` is taken;
anything else yields `None`. -/
def extract_year : PyVal → Option Int
  | .vNone => none
  | .vInt n => if 1000 ≤ n ∧ n ≤ 9999 then some n else none
  | .vStr s => (findYear s.data).map Int.ofNat
  | .vOther => none

/-- View an optional string (a `dict.get` result) as a `PyVal`. -/
def pyOfOpt : Option String → PyVal
  | none => .vNone
  | some s => .vStr s

/-- Match of `\s*=\s*[{\x7d"]?\s*(1\d{3}|20\d{2})` — the part of the
year-field regex after the literal `year` — anchored at the head. -/
def afterEq (l : List Char) : Option Nat :=
  match l.dropWhile Char.isWhitespace with
  | '=' :: r =>
    let r1 := r.dropWhile Char.isWhitespace
    let r2 := match r1 with
      | '\x7b' :: t => t
      | '"' :: t => t
      | _ => r1
    yearAt (r2.dropWhile Char.isWhitespace)
  | _ => none

/-- Match of the full year-field regex anchored at the head: the literal
`year` (case-insensitive) followed by `afterEq`. -/
def yearAssignAt : List Char → Option Nat
  | cy :: ce :: ca :: cr :: rest =>
    if cy.toLower = 'y' ∧ ce.toLower = 'e' ∧ ca.toLower = 'a' ∧ cr.toLower = 'r' then
      afterEq rest
    else none
  | _ => none

/-- Leftmost match of the year-field regex, modelling
`re.search(r"year\s*=\s*[{\"]?\s*(1\d{3}|20\d{2})", s, re.IGNORECASE)`. -/
def findYearAssign : List Char → Option Nat
  | [] => none
  | c :: rest =>
    match yearAssignAt (c :: rest) with
    | some y => some y
    | none => findYearAssign rest

/-- Model of `_extract_year_from_bibtex_string` on string input. -/
def extract_year_from_bibtex_string (s : String) : Option Int :=
  (findYearAssign s.data).map Int.ofNat

/-- One element of the work detail's `external-ids.external-id` list; both
fields may be absent or JSON-null, collapsed here to `none`. -/
structure ExternalId where
  idType : Option String
  idValue : Option String
deriving DecidableEq

/-- Test `ex.get("external-id-type", "").lower() == "doi"`. -/
def isDoiTag (ex : ExternalId) : Bool :=
  lowerStr (ex.idType.getD "") == "doi"

/-- Test `ex.get("external-id-type", "").lower() == "url"`. -/
def isUrlTag (ex : ExternalId) : Bool :=
  lowerStr (ex.idType.getD "") == "url"

/-- Value selected by `ex.get("external-id-value", "") or ""`. -/
def exValue (ex : ExternalId) : String := ex.idValue.getD ""

/-- The identifier loop of the script, carrying the mutable `url`
variable: the first `doi`-tagged entry breaks the loop; each `url`-tagged
entry overwrites `url`; other entries are skipped. -/
def resolveLoop : List ExternalId → Option String → Option String × Option String
  | [], url => (none, url)
  | ex :: rest, url =>
    if isDoiTag ex then (some (exValue ex), url)
    else if isUrlTag ex then resolveLoop rest (some (exValue ex))
    else resolveLoop rest url

/-- Resolved `(doi, url)` pair for a work's external-identifier list,
starting from `doi = None`, `url = None`. -/
def resolveIds (l : List ExternalId) : Option String × Option String :=
  resolveLoop l none

/-- Test `doi.lower().startswith(("http://", "https://"))`. -/
def startsHttp (s : String) : Bool :=
  "http://".data.isPrefixOf (lowerChars s.data) ||
    "https://".data.isPrefixOf (lowerChars s.data)

/-- DOI-as-URL normalization (parsed-citation branch only): when the
lowercased value contains `doi.org/`, take everything after its first
(case-sensitive) occurrence, else take the last `/`-separated segment. -/
def normalize_doi_url (s : String) : String :=
  if containsSub "doi.org/".data (lowerChars s.data) then
    String.mk (afterFirstSub "doi.org/".data s.data)
  else
    String.mk (afterLastSlash s.data)

/-- The guarded normalization statement
`if doi and isinstance(doi, str) and doi.lower().startswith(...)`. -/
def normalizeDoiOpt : Option String → Option String
  | none => none
  | some s => if s ≠ "" ∧ startsHttp s then some (normalize_doi_url s) else some s

/-- The fields of the first entry parsed out of a BibTeX citation string
that the script reads or writes (`entry.get("doi")`, `entry.get("url")`,
`entry.get("year")`); `none` models an absent key. -/
structure ParsedEntry where
  doi : Option String
  url : Option String
  year : Option String
deriving DecidableEq

/-- Identifier injection into a parsed entry:
`if doi and not entry.get("doi"): entry["doi"] = doi
elif url and not entry.get("url"): entry["url"] = url`. -/
def injectIds (e : ParsedEntry) (doi url : Option String) : ParsedEntry :=
  if truthy doi ∧ ¬ truthy e.doi then { e with doi := doi }
  else if truthy url ∧ ¬ truthy e.url then { e with url := url }
  else e

/-- The `citation` block of a work detail: `citation-type` and
`citation-value`, each possibly absent. -/
structure Citation where
  ctype : Option String
  cvalue : Option String
deriving DecidableEq

/-- A work detail as the script reads it: nested `dict.get` chains are
collapsed to optional leaf values, contributors to their optional
credit-name values. -/
structure WorkDetail where
  externalIds : List ExternalId
  citation : Option Citation
  titleValue : Option String
  pubYear : Option String
  contributors : List (Option String)
  journalTitle : Option String

/-- Test `citation and citation.get("citation-type", "").lower() == "bibtex"`. -/
def isBibtexCitation : Option Citation → Bool
  | none => false
  | some c => lowerStr (c.ctype.getD "") == "bibtex"

/-- Word characters for the citekey regex `\W+`: alphanumeric or
underscore. -/
def isWordChar (c : Char) : Bool := c.isAlphanum || c = '_'

/-- Scanner for `re.sub(r"\W+", "_", title)`: the flag records whether
the previous character belonged to a non-word run, so each maximal run
contributes exactly one underscore. -/
def collapseNonWordAux : Bool → List Char → List Char
  | _, [] => []
  | inRun, c :: rest =>
    if isWordChar c then c :: collapseNonWordAux false rest
    else if inRun then collapseNonWordAux true rest
    else '_' :: collapseNonWordAux true rest

/-- Replace every maximal run of non-word characters by one underscore,
modelling `re.sub(r"\W+", "_", title)`. -/
def collapseNonWord (l : List Char) : List Char := collapseNonWordAux false l

/-- Strip leading and trailing underscores, modelling `s.strip("_")`. -/
def stripUnderscores (l : List Char) : List Char :=
  ((l.dropWhile (fun c => c = '_')).reverse.dropWhile (fun c => c = '_')).reverse

/-- Fuel-driven decimal rendering: prepends the digits of `n` (least
significant digit first into the accumulator). -/
def natCharsAux : Nat → Nat → List Char → List Char
  | 0, _, acc => acc
  | fuel + 1, n, acc =>
    let acc1 := Nat.digitChar (n % 10) :: acc
    if n < 10 then acc1 else natCharsAux fuel (n / 10) acc1

/-- Decimal digit characters of a natural number, modelling Python
`str(put_code)` for the non-negative put-codes the API serves. -/
def natChars (n : Nat) : List Char := natCharsAux (n + 1) n []

/-- Sanitized citation key:
`re.sub(r"\W+", "_", title).strip("_") or f"work_{put_code}"`. -/
def citekey (title : String) (putCode : Nat) : String :=
  if String.mk (stripUnderscores (collapseNonWord title.data)) = "" then
    String.mk ("work_".data ++ natChars putCode)
  else String.mk (stripUnderscores (collapseNonWord title.data))

/-- The synthesized entry dict of the fallback branch: entry type,
citation key and optional field values. -/
structure BibEntry where
  entrytype : String
  id : String
  title : String
  year : Option String
  author : Option String
  journal : Option String
  doi : Option String
  url : Option String
deriving DecidableEq

/-- The fallback branch's entry construction (`@misc`, sanitized key,
optional year/author/journal, then `if doi: ... elif url: ...`). -/
def synthEntry (putCode : Nat) (w : WorkDetail) (doi url : Option String) : BibEntry :=
  let title := w.titleValue.getD "untitled"
  let year := w.pubYear.getD ""
  let authors := w.contributors.filterMap id
  let journal := w.journalTitle.getD ""
  { entrytype := "misc"
    id := citekey title putCode
    title := title
    year := if year ≠ "" then some year else none
    author :=
      if authors ≠ [] then
        some (String.intercalate " and " (authors.filter (fun a => a ≠ "")))
      else none
    journal := if journal ≠ "" then some journal else none
    doi := if truthy doi then doi else none
    url := if truthy doi then none else if truthy url then url else none }

/-- Render one optional field line of the BibTeX writer's output. -/
def renderField (name : String) : Option String → String
  | none => ""
  | some v => "  " ++ name ++ " = \x7b" ++ v ++ "\x7d,\n"

/-- Concrete model of `BibTexWriter` output for a synthesized entry:
two-space indent, trailing comma, fields in the writer's alphabetical
order. -/
def renderSynth (e : BibEntry) : String :=
  "@" ++ e.entrytype ++ "\x7b" ++ e.id ++ ",\n"
    ++ renderField "author" e.author
    ++ renderField "doi" e.doi
    ++ renderField "journal" e.journal
    ++ renderField "title" (some e.title)
    ++ renderField "url" e.url
    ++ renderField "year" e.year
    ++ "\x7d"

/-- Fallback branch of the loop body: synthesize an entry, render and
strip it, and pair it with `_extract_year(year)` of the raw year value. -/
def fallbackBranch (putCode : Nat) (w : WorkDetail) (doi url : Option String) :
    Option Int × String :=
  let e := synthEntry putCode w doi url
  (extract_year (.vStr (w.pubYear.getD "")), pyStrip (renderSynth e))

/-- Parse-failure fallback inside the parsed branch: the raw citation
text is stripped and its year extracted by the year-field regex. -/
def rawFallback (bibtex : String) : Option Int × String :=
  let es := pyStrip bibtex
  (extract_year_from_bibtex_string es, es)

/-- Parsed-citation branch of the loop body: normalize the DOI, then
either inject identifiers into the parsed entry and render it, or fall
back to the raw citation text when parsing fails. -/
def parsedBranch (parse : String → Option ParsedEntry) (render : ParsedEntry → String)
    (bibtex : String) (doi url : Option String) : Option Int × String :=
  let doiN := normalizeDoiOpt doi
  match parse bibtex with
  | some e =>
    let e1 := injectIds e doiN url
    (extract_year (pyOfOpt e1.year), pyStrip (render e1))
  | none => rawFallback bibtex

/-- One loop iteration's work on a fetched detail: resolve identifiers,
then take the parsed-citation branch or the synthesized fallback. -/
def normalizeWork (parse : String → Option ParsedEntry) (render : ParsedEntry → String)
    (putCode : Nat) (w : WorkDetail) : Option Int × String :=
  let ids := resolveIds w.externalIds
  if isBibtexCitation w.citation then
    parsedBranch parse render ((w.citation.map (fun c => c.cvalue.getD "")).getD "")
      ids.1 ids.2
  else
    fallbackBranch putCode w ids.1 ids.2

/-- The Python sort key `(x[0] is None, -(x[0] or 0), x[1].lower())` of one
`(year, entry-text)` pair, with the lowered text kept as a character
list. -/
def entryKey (x : Option Int × String) : Bool × Int × List Char :=
  (x.1.isNone, -(x.1.getD 0), lowerChars x.2.data)

/-- Lexicographic comparison of two key tuples
(`False < True` on booleans, numeric order, then string order). -/
def lexKey (p q : Bool × Int × List Char) : Bool :=
  (!p.1 && q.1) ||
    (p.1 == q.1 &&
      (decide (p.2.1 < q.2.1) ||
        (p.2.1 == q.2.1 && listLe p.2.2 q.2.2)))

/-- Comparison of two `(year, entry-text)` pairs, modelling how Python
`sorted` compares their key tuples. -/
def keyLE (a b : Option Int × String) : Bool :=
  lexKey (entryKey a) (entryKey b)

/-- The `sorted(bib_entries_years, key=...)` call, as a stable merge sort
by the key comparison. -/
def sortPairs (l : List (Option Int × String)) : List (Option Int × String) :=
  l.mergeSort keyLE

/-- Join strings with one blank line between consecutive elements,
modelling `"\n\n".join(...)`. -/
def joinBlank : List String → String
  | [] => ""
  | [s] => s
  | s :: rest => s ++ "\n\n" ++ joinBlank rest

/-- The output-file content: sorted entry texts joined by one blank
line, modelling `"\n\n".join(entry for _, entry in sorted_entries)`. -/
def renderOutput (pairs : List (Option Int × String)) : String :=
  joinBlank ((sortPairs pairs).map Prod.snd)

/-- One record of the listing's `group` array: its `work-summary` array,
each summary reduced to the `put-code` the script reads. -/
structure WorkSummary where
  putCode : Nat

/-- A listing group. -/
structure WorksGroup where
  workSummary : List WorkSummary

/-- Everything outside the script that one run observes: the cache file,
the clock, the listing response, a detail-response oracle (`none` models
a failed request or non-success status), the BibTeX parse oracle (`none`
models a parse exception or zero parsed entries) and the writer's render
function for parsed entries. -/
structure Env where
  cacheExists : Bool
  cacheParse : Option Int
  now : Int
  listing : Option (Option (List WorksGroup))
  details : Nat → Option WorkDetail
  parse : String → Option ParsedEntry
  render : ParsedEntry → String

/-- Observable outcome of one run: process exit code, number of HTTP
requests issued, the text written to the output file (if any) and the
timestamp written to the cache file (if any). -/
structure RunOutcome where
  exitCode : Nat
  networkCalls : Nat
  outputWritten : Option String
  cacheWritten : Option Int
deriving DecidableEq

/-- MAX_AGE_DAYS constant of the script. -/
def MAX_AGE_DAYS : Int := 1

/-- Length of `timedelta(days=1)` in seconds. -/
def secondsPerDay : Int := 86400

/-- The cache gate condition: the file exists, every read/parse step
succeeded, and the stored timestamp is less than one day old. -/
def cacheFresh (env : Env) : Bool :=
  env.cacheExists &&
    match env.cacheParse with
    | some t => decide (env.now - t < MAX_AGE_DAYS * secondsPerDay)
    | none => false

/-- The fetch loop over the listing's groups: each iteration reads the
first work summary (crashing when there is none), issues one detail
request (aborting on failure) and produces one `(year, text)` pair.  The
result is the pair list on success (`none` on abort) together with the
number of detail requests issued. -/
def processWorks (env : Env) : List WorksGroup → Option (List (Option Int × String)) × Nat
  | [] => (some [], 0)
  | g :: rest =>
    match g.workSummary.head? with
    | none => (none, 0)
    | some ws =>
      match env.details ws.putCode with
      | none => (none, 1)
      | some w =>
        let pair := normalizeWork env.parse env.render ws.putCode w
        match processWorks env rest with
        | (none, n) => (none, n + 1)
        | (some ps, n) => (some (pair :: ps), n + 1)

/-- The run from the listing request onwards: a non-JSON listing is
fatal; otherwise the groups are processed, and only when every iteration
succeeds are the output file and then the cache file written. -/
def doFetch (env : Env) : RunOutcome :=
  match env.listing with
  | none => ⟨1, 1, none, none⟩
  | some lw =>
    match processWorks env (lw.getD []) with
    | (none, n) => ⟨1, 1 + n, none, none⟩
    | (some pairs, n) => ⟨0, 1 + n, some (renderOutput pairs), some env.now⟩

/-- One whole run of the script: the cache gate either exits with code 0
before any network activity, or the fetch pipeline runs. -/
def run (env : Env) : RunOutcome :=
  if cacheFresh env then ⟨0, 0, none, none⟩ else doFetch env

theorem listLe_trans : ∀ a b c : List Char,
    listLe a b = true → listLe b c = true → listLe a c = true := by
  intro a
  induction a with
  | nil => intro b c _ _; rfl
  | cons x xs ih =>
    intro b c hab hbc
    cases b with
    | nil => simp [listLe] at hab
    | cons y ys =>
      cases c with
      | nil => simp [listLe] at hbc
      | cons z zs =>
        simp only [listLe] at hab hbc ⊢
        by_cases h1 : x.toNat < y.toNat <;> by_cases h2 : y.toNat < z.toNat <;>
          simp [h1, h2] at hab hbc ⊢ <;>
          first
          | omega
          | (constructor <;> omega)
          | skip
        · have hxy : x.toNat = y.toNat := by omega
          have hyz : y.toNat = z.toNat := by omega
          have hxz : ¬ x.toNat < z.toNat := by omega
          have hzx : ¬ z.toNat < x.toNat := by omega
          simp [hxz, hzx] at hab hbc ⊢
          exact ⟨by omega, ih ys zs hab.2 hbc.2⟩

theorem listLe_total : ∀ a b : List Char, listLe a b = true ∨ listLe b a = true := by
  intro a
  induction a with
  | nil => intro b; left; rfl
  | cons x xs ih =>
    intro b
    cases b with
    | nil => right; rfl
    | cons y ys =>
      simp only [listLe]
      by_cases h1 : x.toNat < y.toNat
      · left; simp [h1]
      · by_cases h2 : y.toNat < x.toNat
        · right; simp [h1, h2]
        · rcases ih ys with h | h
          · left; simp [h1, h2, h]
          · right; simp [h1, h2, h]

theorem lexKey_trans : ∀ p q r, lexKey p q = true → lexKey q r = true → lexKey p r = true := by
  rintro ⟨pb, pi, ps⟩ ⟨qb, qi, qs⟩ ⟨rb, ri, rs⟩ hpq hqr
  simp only [lexKey] at hpq hqr ⊢
  cases pb <;> cases qb <;> cases rb <;> simp_all
  · rcases hpq with h | ⟨he, hs⟩
    · rcases hqr with h' | ⟨he', hs'⟩
      · left; omega
      · left; omega
    · rcases hqr with h' | ⟨he', hs'⟩
      · left; omega
      · exact Or.inr ⟨by omega, listLe_trans _ _ _ hs hs'⟩
  · rcases hpq with h | ⟨he, hs⟩
    · rcases hqr with h' | ⟨he', hs'⟩
      · left; omega
      · left; omega
    · rcases hqr with h' | ⟨he', hs'⟩
      · left; omega
      · exact Or.inr ⟨by omega, listLe_trans _ _ _ hs hs'⟩

theorem lexKey_total : ∀ p q, (lexKey p q || lexKey q p) = true := by
  rintro ⟨pb, pi, ps⟩ ⟨qb, qi, qs⟩
  simp only [lexKey]
  cases pb <;> cases qb <;> simp_all
  · rcases Int.lt_trichotomy pi qi with h | h | h
    · left; left; omega
    · rcases listLe_total ps qs with hs | hs
      · left; right; exact ⟨by omega, hs⟩
      · right; right; exact ⟨by omega, hs⟩
    · right; left; omega
  · rcases Int.lt_trichotomy pi qi with h | h | h
    · left; left; omega
    · rcases listLe_total ps qs with hs | hs
      · left; right; exact ⟨by omega, hs⟩
      · right; right; exact ⟨by omega, hs⟩
    · right; left; omega

theorem keyLE_trans : ∀ a b c, keyLE a b = true → keyLE b c = true → keyLE a c = true :=
  fun a b c hab hbc => lexKey_trans _ _ _ hab hbc

theorem keyLE_total : ∀ a b, (keyLE a b || keyLE b a) = true :=
  fun a b => lexKey_total _ _

/-- The relative order the spec promises of two consecutive emitted
entries: no known year after an unknown one, years weakly descending,
and equal sort keys in case-insensitive lexicographic text order. -/
def emitOrder (a b : Option Int × String) : Prop :=
  (a.1 = none → b.1 = none)
  ∧ (∀ y1 y2 : Int, a.1 = some y1 → b.1 = some y2 → y2 ≤ y1)
  ∧ (a.1 = b.1 → listLe (lowerChars a.2.data) (lowerChars b.2.data) = true)

theorem keyLE_imp_emitOrder : ∀ a b, keyLE a b = true → emitOrder a b := by
  rintro ⟨oa, sa⟩ ⟨ob, sb⟩ h
  simp only [keyLE, lexKey, entryKey] at h
  cases oa with
  | none =>
    cases ob with
    | none =>
      refine ⟨fun _ => rfl, fun y1 y2 h1 => by simp at h1, fun _ => ?_⟩
      simpa using h
    | some yb => simp at h
  | some ya =>
    cases ob with
    | none =>
      exact ⟨fun h1 => by simp at h1, fun y1 y2 h1 h2 => by simp at h2,
        fun h1 => by simp at h1⟩
    | some yb =>
      simp at h
      refine ⟨fun h1 => by simp at h1, fun y1 y2 h1 h2 => ?_, fun h1 => ?_⟩
      · cases h1; cases h2
        rcases h with h | ⟨he, _⟩
        · omega
        · omega
      · have hy : ya = yb := by simpa using h1
        subst hy
        rcases h with h | ⟨_, hs⟩
        · omega
        · exact hs

/-- Claim C1: the writer emits the `(year, rendered-text)` pairs as a
permutation of the input arranged so that no entry with a known year
follows one with an unknown year, known years are non-increasing, and
entries with equal sort keys appear in case-insensitive lexicographic
order of their rendered text. -/
theorem c1_writer_emits_sorted (l : List (Option Int × String)) :
    (sortPairs l).Perm l ∧ (sortPairs l).Pairwise emitOrder := by
  constructor
  · exact List.mergeSort_perm l keyLE
  · exact (@List.sorted_mergeSort _ keyLE keyLE_trans keyLE_total l).imp
      (fun h => keyLE_imp_emitOrder _ _ h)

theorem findYear_eq_tails : ∀ l : List Char, findYear l = l.tails.findSome? yearAt := by
  intro l
  induction l with
  | nil => rfl
  | cons c rest ih =>
    simp only [findYear, List.tails_cons, List.findSome?_cons]
    cases hy : yearAt (c :: rest) <;> simp [hy, ih]

/-- Claim C5: the function `extract_year` returns an `int` unchanged exactly when it lies
in `1000..9999`; on a string it returns the value of the leftmost
substring matching `1\d{3}|20\d{2}` (the anchored-match function
`yearAt` applied along `tails` realizes "first substring"); `None` and
any other type yield `None`. -/
theorem c5_extract_year_behavior :
    (∀ n : Int, extract_year (.vInt n) = if 1000 ≤ n ∧ n ≤ 9999 then some n else none)
    ∧ (∀ s : String, extract_year (.vStr s) = (s.data.tails.findSome? yearAt).map Int.ofNat)
    ∧ extract_year .vNone = none ∧ extract_year .vOther = none := by
  refine ⟨fun n => rfl, fun s => ?_, rfl, rfl⟩
  simp [extract_year, findYear_eq_tails]

theorem mem_collapseNonWordAux : ∀ (l : List Char) (b : Bool) (c : Char),
    c ∈ collapseNonWordAux b l → isWordChar c = true ∨ c = '_' := by
  intro l
  induction l with
  | nil => intro b c hc; simp [collapseNonWordAux] at hc
  | cons x xs ih =>
    intro b c hc
    simp only [collapseNonWordAux] at hc
    by_cases hw : isWordChar x
    · simp [hw] at hc
      rcases hc with rfl | hc
      · exact Or.inl hw
      · exact ih false c hc
    · cases b with
      | true =>
        simp [hw] at hc
        exact ih true c hc
      | false =>
        simp [hw] at hc
        rcases hc with rfl | hc
        · exact Or.inr rfl
        · exact ih true c hc

theorem mem_stripUnderscores : ∀ (l : List Char) (c : Char),
    c ∈ stripUnderscores l → c ∈ l := by
  intro l c hc
  simp only [stripUnderscores] at hc
  have h1 := List.Sublist.mem (List.mem_reverse.mp hc)
    (List.dropWhile_sublist (fun d => decide (d = '_')))
  have h2 := List.Sublist.mem (List.mem_reverse.mp h1)
    (List.dropWhile_sublist (fun d => decide (d = '_')))
  exact h2

theorem isWordChar_not_ws : ∀ c : Char, isWordChar c = true → c.isWhitespace = false := by
  intro c h
  by_contra hw
  simp only [Bool.not_eq_false] at hw
  simp [Char.isWhitespace] at hw
  rcases hw with ((rfl | rfl) | rfl) | rfl <;> exact absurd h (by decide)

theorem mem_natCharsAux : ∀ (fuel n : Nat) (acc : List Char) (c : Char),
    c ∈ natCharsAux fuel n acc → c ∈ acc ∨ ∃ d, d < 10 ∧ c = Nat.digitChar d := by
  intro fuel
  induction fuel with
  | zero => intro n acc c hc; exact Or.inl hc
  | succ f ih =>
    intro n acc c hc
    simp only [natCharsAux] at hc
    by_cases h10 : n < 10
    · simp [h10] at hc
      rcases hc with rfl | hc
      · exact Or.inr ⟨n % 10, Nat.mod_lt _ (by omega), rfl⟩
      · exact Or.inl hc
    · simp [h10] at hc
      rcases ih (n / 10) (Nat.digitChar (n % 10) :: acc) c hc with h | h
      · rcases List.mem_cons.mp h with rfl | h
        · exact Or.inr ⟨n % 10, Nat.mod_lt _ (by omega), rfl⟩
        · exact Or.inl h
      · exact Or.inr h

theorem digitChar_not_ws : ∀ d : Nat, d < 10 → (Nat.digitChar d).isWhitespace = false := by
  intro d hd
  interval_cases d <;> decide

/-- Claim C6: the synthesized citation key collapses every maximal run of
non-word characters in the title to one underscore and strips outer
underscores (so "A Study: On Things!" becomes "A_Study_On_Things"); the
key is never empty and never contains whitespace; when sanitization
leaves nothing, the key falls back to `work_` followed by the decimal
put-code. -/
theorem c6_citekey_sanitization :
    citekey "A Study: On Things!" 123 = "A_Study_On_Things"
    ∧ (∀ t : String, ∀ pc : Nat, citekey t pc ≠ ""
        ∧ ∀ c ∈ (citekey t pc).data, c.isWhitespace = false)
    ∧ (∀ t : String, ∀ pc : Nat,
        String.mk (stripUnderscores (collapseNonWord t.data)) = "" →
        citekey t pc = String.mk ("work_".data ++ natChars pc)) := by
  refine ⟨by decide, fun t pc => ⟨?_, ?_⟩, fun t pc h => ?_⟩
  · unfold citekey
    by_cases hk : String.mk (stripUnderscores (collapseNonWord t.data)) = ""
    · rw [if_pos hk]
      intro hbad
      have hdata := congrArg String.data hbad
      simp at hdata
    · rw [if_neg hk]
      exact hk
  · intro c hcmem
    unfold citekey at hcmem
    by_cases hk : String.mk (stripUnderscores (collapseNonWord t.data)) = ""
    · rw [if_pos hk] at hcmem
      rcases List.mem_append.mp hcmem with h | h
      · have h5 : c ∈ ['w', 'o', 'r', 'k', '_'] := h
        fin_cases h5 <;> decide
      · rcases mem_natCharsAux _ _ _ _ h with h' | ⟨d, hd, rfl⟩
        · simp at h'
        · exact digitChar_not_ws d hd
    · rw [if_neg hk] at hcmem
      have hmem := mem_stripUnderscores _ _ hcmem
      rcases mem_collapseNonWordAux _ _ _ hmem with hw | rfl
      · exact isWordChar_not_ws c hw
      · decide
  · unfold citekey
    rw [if_pos h]

/-- Witness for the fallback clause of `c6_citekey_sanitization`: a title
of only non-word characters yields the put-code key. -/
theorem c6_citekey_sanitization_witness :
    citekey "!!!" 45 = String.mk ("work_".data ++ natChars 45)
      ∧ citekey "!!!" 45 = "work_45" :=
  ⟨c6_citekey_sanitization.2.2 "!!!" 45 (by decide), by decide⟩

/-- Counterexample to claim C2: in the parsed-BibTeX branch, a parsed entry that
already carries a `url` field still receives the resolved DOI, so the
entry produced by the normalizer ends up with both `doi` and `url`
set. -/
theorem c2_both_identifiers_set :
    (injectIds ⟨none, some "http://example.com/p", none⟩ (some "10.1234/x") none).doi
        = some "10.1234/x"
    ∧ (injectIds ⟨none, some "http://example.com/p", none⟩ (some "10.1234/x") none).url
        = some "http://example.com/p"
    ∧ truthy (injectIds ⟨none, some "http://example.com/p", none⟩ (some "10.1234/x") none).doi
        = true
    ∧ truthy (injectIds ⟨none, some "http://example.com/p", none⟩ (some "10.1234/x") none).url
        = true := by
  decide

/-- Amended claim C2: the synthesized fallback entry carries at most one of
doi/url, preferring doi; in the parsed branch at most one identifier is
injected (doi first), so an entry whose citation carried neither
identifier ends with at most one set — but a parsed citation may already
carry the other identifier, in which case both can be set. -/
theorem c2_identifier_preference :
    (∀ pc w doi url,
      ¬(truthy (synthEntry pc w doi url).doi = true
          ∧ truthy (synthEntry pc w doi url).url = true)
      ∧ (truthy doi = true → (synthEntry pc w doi url).doi = doi))
    ∧ (∀ e doi url, e.doi = none → e.url = none →
        ¬(truthy (injectIds e doi url).doi = true
            ∧ truthy (injectIds e doi url).url = true)
        ∧ (truthy doi = true → (injectIds e doi url).doi = doi)) := by
  have hsd : ∀ pc w doi url, (synthEntry pc w doi url).doi
      = if truthy doi then doi else none := fun _ _ _ _ => rfl
  have hsu : ∀ pc w doi url, (synthEntry pc w doi url).url
      = if truthy doi then none else if truthy url then url else none :=
    fun _ _ _ _ => rfl
  constructor
  · intro pc w doi url
    constructor
    · rw [hsd, hsu]
      by_cases hd : truthy doi = true
      · rw [if_pos hd, if_pos hd]
        rintro ⟨-, hbad⟩
        exact absurd hbad (by decide)
      · rw [if_neg hd, if_neg hd]
        rintro ⟨hbad, -⟩
        exact absurd hbad (by decide)
    · intro hd
      rw [hsd, if_pos hd]
  · rintro ⟨ed, eu, ey⟩ doi url hd hu
    have hd1 : ed = none := hd
    have hu1 : eu = none := hu
    subst hd1
    subst hu1
    constructor
    · by_cases h1 : truthy doi = true
      · unfold injectIds
        rw [if_pos ⟨h1, fun h => Bool.noConfusion h⟩]
        rintro ⟨-, hbad⟩
        exact Bool.noConfusion hbad
      · by_cases h2 : truthy url = true
        · unfold injectIds
          rw [if_neg (fun hc => h1 hc.1), if_pos ⟨h2, fun h => Bool.noConfusion h⟩]
          rintro ⟨hbad, -⟩
          exact Bool.noConfusion hbad
        · unfold injectIds
          rw [if_neg (fun hc => h1 hc.1), if_neg (fun hc => h2 hc.1)]
          rintro ⟨hbad, -⟩
          exact Bool.noConfusion hbad
    · intro h1
      unfold injectIds
      rw [if_pos ⟨h1, fun h => Bool.noConfusion h⟩]

/-- Witness for `c2_identifier_preference`: with no identifiers in the
parsed citation and both resolved, only the doi is injected. -/
theorem c2_identifier_preference_witness :
    (injectIds ⟨none, none, none⟩ (some "10.1/z") (some "http://u")).doi = some "10.1/z" :=
  ((c2_identifier_preference.2 ⟨none, none, none⟩ (some "10.1/z") (some "http://u"))
    rfl rfl).2 (by decide)

theorem getLast?_cons_or {α : Type} (a : α) (l : List α) :
    (a :: l).getLast? = l.getLast?.or (some a) := by
  induction l generalizing a with
  | nil => rfl
  | cons b t ih =>
    rw [List.getLast?_cons_cons, ih b]
    cases h : t.getLast? <;> simp [Option.or]

theorem map_or {α β : Type} (f : α → β) (o : Option α) (a : α) :
    (o.or (some a)).map f = (o.map f).or (some (f a)) := by
  cases o <;> rfl

theorem or_some_or {α : Type} (o u : Option α) (a : α) :
    (o.or (some a)).or u = o.or (some a) := by
  cases o <;> rfl

/-- The value of the first `doi`-tagged identifier of the list, if any. -/
def firstDoi (l : List ExternalId) : Option String :=
  ((l.filter isDoiTag).head?).map exValue

/-- The value of the last `url`-tagged identifier occurring strictly
before the first `doi`-tagged one (or in the whole list when no `doi`
is tagged), if any. -/
def lastUrlBefore (l : List ExternalId) : Option String :=
  (((l.takeWhile (fun ex => !isDoiTag ex)).filter isUrlTag).getLast?).map exValue

theorem resolveLoop_eq : ∀ (l : List ExternalId) (u : Option String),
    resolveLoop l u = (firstDoi l, (lastUrlBefore l).or u) := by
  intro l
  induction l with
  | nil => intro u; simp [resolveLoop, firstDoi, lastUrlBefore, Option.or]
  | cons ex rest ih =>
    intro u
    by_cases hdoi : isDoiTag ex = true
    · simp [resolveLoop, firstDoi, lastUrlBefore, hdoi, Option.or]
    · have hdoi1 : isDoiTag ex = false := by simpa using hdoi
      by_cases hurl : isUrlTag ex = true
      · rw [show resolveLoop (ex :: rest) u = resolveLoop rest (some (exValue ex)) by
            simp [resolveLoop, hdoi1, hurl], ih]
        have h1 : firstDoi (ex :: rest) = firstDoi rest := by
          simp [firstDoi, List.filter_cons, hdoi1]
        have h2 : lastUrlBefore (ex :: rest) = (lastUrlBefore rest).or (some (exValue ex)) := by
          simp only [lastUrlBefore, List.takeWhile_cons, hdoi1, Bool.not_false, if_true,
            List.filter_cons, hurl]
          rw [getLast?_cons_or, map_or]
        rw [h1, h2, or_some_or]
      · have hurl1 : isUrlTag ex = false := by simpa using hurl
        rw [show resolveLoop (ex :: rest) u = resolveLoop rest u by
            simp [resolveLoop, hdoi1, hurl1], ih]
        have h1 : firstDoi (ex :: rest) = firstDoi rest := by
          simp [firstDoi, List.filter_cons, hdoi1]
        have h2 : lastUrlBefore (ex :: rest) = lastUrlBefore rest := by
          simp [lastUrlBefore, List.takeWhile_cons, hdoi1, List.filter_cons, hurl1]
        rw [h1, h2]

/-- Counterexample to claim C3: for a list of two `url`-tagged identifiers and no
`doi`, the loop resolves the last `url` value, not the first: the first
`url`-tagged value is `"A"` but the resolved url is `"B"`. -/
theorem c3_first_url_not_selected :
    ((([⟨some "url", some "A"⟩, ⟨some "url", some "B"⟩] :
        List ExternalId).filter isUrlTag).head?).map exValue = some "A"
    ∧ (∀ ex ∈ ([⟨some "url", some "A"⟩, ⟨some "url", some "B"⟩] : List ExternalId),
        isDoiTag ex = false)
    ∧ (resolveIds [⟨some "url", some "A"⟩, ⟨some "url", some "B"⟩]).2 = some "B"
    ∧ (some "B" : Option String) ≠ some "A" := by
  decide

/-- Amended claim C3: the resolved doi is the value of the first `doi`-tagged
entry; the resolved url is the value of the last `url`-tagged entry
strictly before the first `doi`-tagged one (or last in the whole list
when no `doi` is tagged), so no url is resolved from entries at or after
the first doi entry. -/
theorem c3_identifier_selection : ∀ l : List ExternalId,
    resolveIds l = (firstDoi l, lastUrlBefore l) := by
  intro l
  rw [resolveIds, resolveLoop_eq]
  cases h : lastUrlBefore l <;> simp [Option.or]

/-- A work with a DOI expressed as a resolver URL and no BibTeX
citation, so the synthesized fallback branch is taken. -/
def c4wd : WorkDetail :=
  { externalIds := [⟨some "doi", some "https://doi.org/10.1234/abc"⟩], citation := none,
    titleValue := some "T", pubYear := none, contributors := [], journalTitle := none }

/-- Counterexample to claim C4: the normalization is not applied uniformly — the
synthesized fallback branch records the resolver URL itself as the doi,
not the bare DOI string. -/
theorem c4_fallback_doi_unnormalized :
    isBibtexCitation c4wd.citation = false
    ∧ (resolveIds c4wd.externalIds).1 = some "https://doi.org/10.1234/abc"
    ∧ (synthEntry 7 c4wd (resolveIds c4wd.externalIds).1
        (resolveIds c4wd.externalIds).2).doi = some "https://doi.org/10.1234/abc"
    ∧ (some "https://doi.org/10.1234/abc" : Option String) ≠ some "10.1234/abc" := by
  decide

/-- Amended claim C4: the DOI-as-URL normalization applies only in the
parsed-citation branch, where the two claimed resolutions hold and the
injected doi is the normalized one; the synthesized fallback branch
records the resolved doi value unmodified. -/
theorem c4_doi_normalization :
    normalizeDoiOpt (some "https://doi.org/10.1234/abc") = some "10.1234/abc"
    ∧ normalizeDoiOpt (some "http://example.org/foo/10.1234/abc") = some "abc"
    ∧ (∀ parse render bibtex doi url e, parse bibtex = some e →
        parsedBranch parse render bibtex doi url =
          (extract_year (pyOfOpt (injectIds e (normalizeDoiOpt doi) url).year),
            pyStrip (render (injectIds e (normalizeDoiOpt doi) url))))
    ∧ (∀ e doi url, e.doi = none → truthy (normalizeDoiOpt doi) = true →
        (injectIds e (normalizeDoiOpt doi) url).doi = normalizeDoiOpt doi)
    ∧ (∀ pc w doi url, truthy doi = true → (synthEntry pc w doi url).doi = doi) := by
  refine ⟨by decide, by decide, fun parse render bibtex doi url e hp => ?_,
    fun e doi url hd ht => ?_, fun pc w doi url hd => ?_⟩
  · simp only [parsedBranch, hp]
  · obtain ⟨ed, eu, ey⟩ := e
    have hd1 : ed = none := hd
    subst hd1
    unfold injectIds
    rw [if_pos ⟨ht, fun h => Bool.noConfusion h⟩]
  · have hsd : (synthEntry pc w doi url).doi = if truthy doi then doi else none := rfl
    rw [hsd, if_pos hd]

/-- Witness for `c4_doi_normalization`: the parsed branch injects the
normalized bare DOI into an entry lacking one. -/
theorem c4_doi_normalization_witness :
    (injectIds ⟨none, none, none⟩
      (normalizeDoiOpt (some "https://doi.org/10.1234/abc")) none).doi
        = normalizeDoiOpt (some "https://doi.org/10.1234/abc") :=
  c4_doi_normalization.2.2.2.1 ⟨none, none, none⟩
    (some "https://doi.org/10.1234/abc") none rfl (by decide)

theorem processWorks_length : ∀ (env : Env) (works : List WorksGroup) pairs n,
    processWorks env works = (some pairs, n) → pairs.length = works.length := by
  intro env works
  induction works with
  | nil =>
    intro pairs n h
    simp only [processWorks, Prod.mk.injEq, Option.some.injEq] at h
    rw [← h.1]
    rfl
  | cons g rest ih =>
    intro pairs n h
    cases hh : g.workSummary.head? with
    | none => simp [processWorks, hh] at h
    | some ws =>
      cases hd : env.details ws.putCode with
      | none => simp [processWorks, hh, hd] at h
      | some w =>
        cases hr : processWorks env rest with
        | mk o m =>
          cases o with
          | none => simp [processWorks, hh, hd, hr] at h
          | some ps =>
            simp only [processWorks, hh, hd, hr, Prod.mk.injEq, Option.some.injEq] at h
            rw [← h.1, List.length_cons, List.length_cons, ih ps m (by rw [hr])]

/-- Claim C7: every successfully processed listing yields exactly one
`(year, text)` pair per input work, whichever branch each iteration
takes, and the sorted output is a permutation of those pairs — the same
number of rendered entries as works, none dropped, none duplicated. -/
theorem c7_one_entry_per_work : ∀ (env : Env) (works : List WorksGroup) pairs n,
    processWorks env works = (some pairs, n) →
    pairs.length = works.length
    ∧ (sortPairs pairs).Perm pairs
    ∧ ((sortPairs pairs).map Prod.snd).length = works.length := by
  intro env works pairs n h
  have hl := processWorks_length env works pairs n h
  refine ⟨hl, List.mergeSort_perm pairs keyLE, ?_⟩
  rw [List.length_map]
  exact (List.mergeSort_perm pairs keyLE).length_eq.trans hl

/-- A work detail with no citation, used in concrete environments. -/
def c7wd : WorkDetail :=
  { externalIds := [], citation := none, titleValue := some "Work B",
    pubYear := some "2021", contributors := [some "J. Doe"], journalTitle := none }

/-- A two-work environment whose detail requests all succeed. -/
def c7env : Env :=
  { cacheExists := false, cacheParse := none, now := 0,
    listing := some (some [⟨[⟨7⟩]⟩, ⟨[⟨8⟩]⟩]),
    details := fun _ => some c7wd, parse := fun _ => none, render := fun _ => "" }

/-- The two pairs `c7env` produces. -/
def c7pairs : List (Option Int × String) :=
  [(some 2021, pyStrip (renderSynth (synthEntry 7 c7wd none none))),
   (some 2021, pyStrip (renderSynth (synthEntry 8 c7wd none none)))]

/-- Witness for `c7_one_entry_per_work` on a concrete two-work run. -/
theorem c7_one_entry_per_work_witness :
    c7pairs.length = ([⟨[⟨7⟩]⟩, ⟨[⟨8⟩]⟩] : List WorksGroup).length
    ∧ (sortPairs c7pairs).Perm c7pairs
    ∧ ((sortPairs c7pairs).map Prod.snd).length
        = ([⟨[⟨7⟩]⟩, ⟨[⟨8⟩]⟩] : List WorksGroup).length :=
  c7_one_entry_per_work c7env [⟨[⟨7⟩]⟩, ⟨[⟨8⟩]⟩] c7pairs 2 (by decide)

/-- Claim C8: if the cache file is absent, or any read/parse step fails, the
run proceeds to the fetch stage (treated as stale, no crash); if a valid
timestamp less than one day old is present, the run exits with code 0
having issued zero network requests and written nothing. -/
theorem c8_cache_gate : ∀ (env : Env) (t : Int),
    (env.cacheExists = false → run env = doFetch env)
    ∧ (env.cacheParse = none → run env = doFetch env)
    ∧ (env.cacheExists = true → env.cacheParse = some t →
        env.now - t < MAX_AGE_DAYS * secondsPerDay →
        run env = ⟨0, 0, none, none⟩) := by
  intro env t
  refine ⟨fun h => ?_, fun h => ?_, fun h1 h2 h3 => ?_⟩
  · have hf : cacheFresh env = false := by simp [cacheFresh, h]
    simp [run, hf]
  · have hf : cacheFresh env = false := by simp [cacheFresh, h]
    simp [run, hf]
  · have hf : cacheFresh env = true := by simp [cacheFresh, h1, h2, h3]
    simp [run, hf]

/-- An environment with no cache file at all. -/
def c8envA : Env :=
  { cacheExists := false, cacheParse := none, now := 0, listing := none,
    details := fun _ => none, parse := fun _ => none, render := fun _ => "" }

/-- An environment with a one-hour-old valid cache timestamp. -/
def c8envB : Env :=
  { cacheExists := true, cacheParse := some 0, now := 3600, listing := none,
    details := fun _ => none, parse := fun _ => none, render := fun _ => "" }

/-- Witness for `c8_cache_gate`: a missing cache proceeds to the fetch,
a fresh cache exits early with no network activity. -/
theorem c8_cache_gate_witness :
    run c8envA = doFetch c8envA ∧ run c8envB = ⟨0, 0, none, none⟩ :=
  ⟨(c8_cache_gate c8envA 0).1 rfl, (c8_cache_gate c8envB 0).2.2 rfl rfl (by decide)⟩

theorem processWorks_fails : ∀ (env : Env) (works : List WorksGroup),
    (∃ g ∈ works, ∃ ws, g.workSummary.head? = some ws ∧ env.details ws.putCode = none) →
    (processWorks env works).1 = none := by
  intro env works
  induction works with
  | nil => rintro ⟨g, hg, -⟩; simp at hg
  | cons g rest ih =>
    rintro ⟨g1, hg1, ws, hws, hdet⟩
    rcases List.mem_cons.mp hg1 with rfl | hmem
    · simp [processWorks, hws, hdet]
    · cases hh : g.workSummary.head? with
      | none => simp [processWorks, hh]
      | some ws2 =>
        cases hd : env.details ws2.putCode with
        | none => simp [processWorks, hh, hd]
        | some w =>
          have hrec := ih ⟨g1, hmem, ws, hws, hdet⟩
          cases hr : processWorks env rest with
          | mk o m =>
            rw [hr] at hrec
            cases o with
            | none => simp [processWorks, hh, hd, hr]
            | some ps => simp at hrec
  
theorem processWorks_success : ∀ (env : Env) (works : List WorksGroup) pairs n,
    processWorks env works = (some pairs, n) →
    ∀ g ∈ works, ∃ ws, g.workSummary.head? = some ws ∧ (env.details ws.putCode).isSome := by
  intro env works
  induction works with
  | nil => intro pairs n _ g hg; simp at hg
  | cons g rest ih =>
    intro pairs n h g1 hg1
    cases hh : g.workSummary.head? with
    | none => simp [processWorks, hh] at h
    | some ws =>
      cases hd : env.details ws.putCode with
      | none => simp [processWorks, hh, hd] at h
      | some w =>
        cases hr : processWorks env rest with
        | mk o m =>
          cases o with
          | none => simp [processWorks, hh, hd, hr] at h
          | some ps =>
            rcases List.mem_cons.mp hg1 with rfl | hmem
            · exact ⟨ws, hh, by rw [hd]; rfl⟩
            · exact ih ps m (by rw [hr]) g1 hmem

/-- Claim C9: a non-JSON listing response or a failed detail request makes the
run exit with a non-zero status and write neither the output file nor
the cache file; conversely anything written implies exit code 0, a JSON
listing, and a successful detail fetch for every listed work. -/
theorem c9_fatal_fetch_aborts : ∀ env : Env,
    (cacheFresh env = false → env.listing = none →
      (run env).exitCode ≠ 0 ∧ (run env).outputWritten = none
        ∧ (run env).cacheWritten = none)
    ∧ (∀ lw, cacheFresh env = false → env.listing = some lw →
        (∃ g ∈ lw.getD [], ∃ ws, g.workSummary.head? = some ws
            ∧ env.details ws.putCode = none) →
        (run env).exitCode ≠ 0 ∧ (run env).outputWritten = none
          ∧ (run env).cacheWritten = none)
    ∧ ((run env).outputWritten ≠ none ∨ (run env).cacheWritten ≠ none →
        (run env).exitCode = 0
        ∧ ∃ lw pairs n, env.listing = some lw
            ∧ processWorks env (lw.getD []) = (some pairs, n)
            ∧ ∀ g ∈ lw.getD [], ∃ ws, g.workSummary.head? = some ws
                ∧ (env.details ws.putCode).isSome) := by
  intro env
  refine ⟨fun hf hl => ?_, fun lw hf hl hex => ?_, fun hw => ?_⟩
  · simp [run, hf, doFetch, hl]
  · have hfail := processWorks_fails env (lw.getD []) hex
    cases hr : processWorks env (lw.getD []) with
    | mk o m =>
      rw [hr] at hfail
      cases o with
      | none => simp [run, hf, doFetch, hl, hr]
      | some ps => simp at hfail
  · by_cases hf : cacheFresh env = true
    · simp [run, hf] at hw
    · have hf1 : cacheFresh env = false := by simpa using hf
      cases hl : env.listing with
      | none => simp [run, hf1, doFetch, hl] at hw
      | some lw =>
        cases hr : processWorks env (lw.getD []) with
        | mk o m =>
          cases o with
          | none => simp [run, hf1, doFetch, hl, hr] at hw
          | some ps =>
            exact ⟨by simp [run, hf1, doFetch, hl, hr], lw, ps, m, rfl, hr,
              processWorks_success env (lw.getD []) ps m hr⟩

/-- An environment whose listing request yields no JSON. -/
def c9envA : Env :=
  { cacheExists := false, cacheParse := none, now := 0, listing := none,
    details := fun _ => none, parse := fun _ => none, render := fun _ => "" }

/-- An environment with one listed work whose detail request fails. -/
def c9envB : Env :=
  { cacheExists := false, cacheParse := none, now := 0,
    listing := some (some [⟨[⟨3⟩]⟩]),
    details := fun _ => none, parse := fun _ => none, render := fun _ => "" }

/-- Witness for `c9_fatal_fetch_aborts`: both fatal shapes end with a
non-zero exit and no writes. -/
theorem c9_fatal_fetch_aborts_witness :
    ((run c9envA).exitCode ≠ 0 ∧ (run c9envA).outputWritten = none
      ∧ (run c9envA).cacheWritten = none)
    ∧ ((run c9envB).exitCode ≠ 0 ∧ (run c9envB).outputWritten = none
      ∧ (run c9envB).cacheWritten = none) :=
  ⟨(c9_fatal_fetch_aborts c9envA).1 (by decide) rfl,
   (c9_fatal_fetch_aborts c9envB).2.1 (some [⟨[⟨3⟩]⟩]) (by decide) rfl
     ⟨⟨[⟨3⟩]⟩, by simp, ⟨3⟩, rfl, rfl⟩⟩

/-- Claim C10: a listing that is valid JSON but has no `group` key is not
fatal: the run finishes with exit code 0 after the single listing
request, writes the output file with empty content, and rewrites the
cache timestamp. -/
theorem c10_groupless_listing_succeeds : ∀ env : Env,
    cacheFresh env = false → env.listing = some none →
    run env = ⟨0, 1, some "", some env.now⟩ := by
  intro env hf hl
  simp [run, hf, doFetch, hl, processWorks, renderOutput, sortPairs,
    List.mergeSort_nil, joinBlank]

/-- An environment whose listing is a JSON object without `group`. -/
def c10env : Env :=
  { cacheExists := false, cacheParse := none, now := 100, listing := some none,
    details := fun _ => none, parse := fun _ => none, render := fun _ => "" }

/-- Witness for `c10_groupless_listing_succeeds`. -/
theorem c10_groupless_listing_succeeds_witness :
    run c10env = ⟨0, 1, some "", some 100⟩ :=
  c10_groupless_listing_succeeds c10env (by decide) rfl
